import Mathlib

/-!
Verification of the WaitlistMailer library (`src/lib/index.ts`) against its
natural-language specification.

The TypeScript class `WaitlistMailer` is shallowly embedded here:
* the mutable instance state (`storage`, `waitlist : Set<string>`,
  `companyName`, `mongoUri`, `sqlConnection`, the transporter auth user and
  the `initialized` flag) becomes the structure `Mailer`; the JS `Set` is a
  duplicate-free list in insertion order (`Set` iteration order);
* external collaborators (the Joi email schema, the nodemailer transport,
  `fs/promises.readFile`, and the Mongo/SQL drivers) are oracles collected in
  `Env`; the transport oracle is indexed by the running count of
  `transporter.sendMail` invocations, which the state tracks in
  `transportCalls`;
* events emitted through the inherited `EventEmitter` are recorded in order
  in `Mailer.events`; only synchronously emitted events are modelled (the
  constructor's `transporter.verify` callback, the Mongo/SQL connection
  chain and the `setTimeout`-deferred `onInitialized` are asynchronous and
  fire only after the constructor has returned);
* each method becomes a pure function from the old state (plus arguments)
  to its return value and the new state.
-/

namespace WaitlistMailer

/-- The `storage` selector: `'local' | 'db' | 'sql'` (`local` is a Lean
keyword, hence `localMem`). -/
inductive Storage where
  | localMem
  | db
  | sql
deriving DecidableEq

/-- The events the class emits synchronously from the modelled methods,
with their payloads (`handleError` emits `onError` with an `{email, action,
error}` payload; the opaque `error` value is not modelled). -/
inductive Event where
  | onValidationError (email : String) (message : Option String)
  | onDuplicateEmail (email : String)
  | onEmailAdded (email : String)
  | onEmailRemoved (email : String)
  | onWaitlistCleared
  | onEmailSent (email : String)
  | onEmailRetry (email : String) (attempt : Nat)
  | onBulkConfirmationComplete (successCount : Nat) (total : Nat)
  | onError (email : String) (action : String)
deriving DecidableEq

/-- `MailConfig` from the source, with every field optional so that a
"missing required field" is representable (`none` is TS `undefined`). -/
structure MailConfig where
  host : Option String
  port : Option Nat
  user : Option String
  pass : Option String
deriving DecidableEq

/-- `WaitlistMailerOptions`: `companyName?`, `mongoUri?` and the presence of
`sqlConfig` (its connection parameters only feed the external Sequelize
driver and are not otherwise read). -/
structure Options where
  companyName : Option String
  mongoUri : Option String
  sqlConfig : Bool
deriving DecidableEq

/-- The external collaborators, as oracles:
`joiEmailError e` is `schema.validate(e).error?.message` of the Joi schema
(`none` means the address is accepted); `transport n` is the outcome of the
`n`-th `transporter.sendMail` call of the run; `fs p` is the content
`readFile(p, 'utf8')` resolves to (`none`: the read rejects); the remaining
fields are the answers of the Mongo/SQL drivers to the delegated queries. -/
structure Env where
  joiEmailError : String → Option String
  transport : Nat → Bool
  fs : String → Option String
  dbFind : String → List String
  sqlFind : String → List String
  dbCount : Option Int → Option Int → Nat
  sqlCount : Option Int → Option Int → Nat

/-- The instance state of a `WaitlistMailer`. -/
structure Mailer where
  storage : Storage
  waitlist : List String
  companyName : String
  mongoUri : Option String
  hasSqlConnection : Bool
  authUser : String
  initialized : Bool
  events : List Event
  transportCalls : Nat
deriving DecidableEq

/-- `this.emit(...)`: record the event. -/
def emit (s : Mailer) (e : Event) : Mailer :=
  { s with events := s.events ++ [e] }

/-- JS truthiness of an optional string: `undefined` and `""` are falsy. -/
def jsTruthy (o : Option String) : Bool :=
  match o with
  | some str => str ≠ ""
  | none => false

/-- JS `a || b` on an optional string (used for
`options?.companyName || 'Your Company Name'`). -/
def jsOr (o : Option String) (d : String) : String :=
  match o with
  | some str => if str = "" then d else str
  | none => d

/-- The constructor body (lines 66–152). It stores the options, creates the
transporter (`nodemailer.createTransport` accepts arbitrary partial options
and does not throw), registers the asynchronous `verify` callback, and for
`'db'`-with-truthy-`mongoUri` or `'sql'`-with-`sqlConnection` starts the
asynchronous connection chain, leaving `initialized` false until that chain
completes; in every other case it sets `initialized` immediately and defers
`onInitialized` via `setTimeout`. No code path inspects the `mailConfig`
fields or throws, so the result is always `Except.ok` of this state. -/
def constructState (storage : Storage) (mailConfig : MailConfig)
    (options : Options) : Mailer :=
  { storage := storage
    waitlist := []
    companyName := jsOr options.companyName "Your Company Name"
    mongoUri := options.mongoUri
    hasSqlConnection := options.sqlConfig
    authUser := mailConfig.user.getD ""
    initialized :=
      match storage with
      | Storage.db => !jsTruthy options.mongoUri
      | Storage.sql => !options.sqlConfig
      | Storage.localMem => true
    events := []
    transportCalls := 0 }

/-- `new WaitlistMailer(storage, mailConfig, options)`, with synchronous
exceptions made explicit in the type: the constructor contains no `throw`
and calls nothing that throws synchronously, so it always returns `ok`. -/
def construct (storage : Storage) (mailConfig : MailConfig)
    (options : Options) : Except String Mailer :=
  Except.ok (constructState storage mailConfig options)

/-- Result shape of `validateEmailFormat`. -/
structure ValidationResult where
  isValid : Bool
  message : Option String
deriving DecidableEq

/-- `validateEmailFormat` (lines 155–162): delegates to the Joi schema. -/
def validateEmailFormat (env : Env) (email : String) : ValidationResult :=
  match env.joiEmailError email with
  | some msg => { isValid := false, message := some msg }
  | none => { isValid := true, message := none }

/-- `emailExists` (lines 165–167): `this.waitlist.has(email)`. -/
def emailExists (s : Mailer) (email : String) : Bool :=
  email ∈ s.waitlist

/-- `addEmail` (lines 278–309). Validation failure and duplicates emit their
events and return false; otherwise the email is inserted in the in-memory
set and `onEmailAdded` is emitted. The subsequent `WaitlistModel.create` /
`WaitlistSequelize.create` persistence is fire-and-forget I/O on the
external driver and does not touch the in-memory state. -/
def addEmail (env : Env) (s : Mailer) (email : String) : Bool × Mailer :=
  let formatCheck := validateEmailFormat env email
  if formatCheck.isValid = false then
    (false, emit s (Event.onValidationError email formatCheck.message))
  else if emailExists s email then
    (false, emit s (Event.onDuplicateEmail email))
  else
    (true, emit { s with waitlist := s.waitlist ++ [email] }
      (Event.onEmailAdded email))

/-- `removeEmail` (lines 311–328): absent address returns false with no
event; otherwise the address is removed and `onEmailRemoved` emitted (the
backend delete is fire-and-forget external I/O). -/
def removeEmail (s : Mailer) (email : String) : Bool × Mailer :=
  if email ∈ s.waitlist then
    (true, emit { s with waitlist := s.waitlist.erase email }
      (Event.onEmailRemoved email))
  else
    (false, s)

/-- `getWaitlist` (lines 330–332): `Array.from(this.waitlist)` copies the
set into a fresh array (returned by value here) and leaves the state
untouched. -/
def getWaitlist (s : Mailer) : List String × Mailer :=
  (s.waitlist, s)

/-- `clearWaitlist` (lines 334–344). -/
def clearWaitlist (s : Mailer) : Mailer :=
  emit { s with waitlist := [] } Event.onWaitlistCleared

/-- `countWaitlistByDate` (lines 244–276): the `'local'` branch returns
`this.waitlist.size` ignoring both bounds; the others delegate to the
external store when it is configured, and leave `count = 0` otherwise. The
local branch cannot reach the `catch`. The state is unchanged. -/
def countWaitlistByDate (env : Env) (s : Mailer)
    (startDate endDate : Option Int) : Nat :=
  match s.storage with
  | Storage.localMem => s.waitlist.length
  | Storage.db =>
      if jsTruthy s.mongoUri then env.dbCount startDate endDate else 0
  | Storage.sql =>
      if s.hasSqlConnection then env.sqlCount startDate endDate else 0

/-- JS `String.prototype.includes` on char lists. -/
def listIncludes : List Char → List Char → Bool
  | [], needle => needle.isEmpty
  | c :: t, needle => needle.isPrefixOf (c :: t) || listIncludes t needle

/-- `email.toLowerCase().includes(pattern.toLowerCase())`. -/
def strIncludes (hay needle : String) : Bool :=
  listIncludes hay.toList needle.toList

/-- `findEmailsByPattern` (lines 217–241): the `'local'` branch filters the
in-memory set case-insensitively; the others delegate to the drivers. -/
def findEmailsByPattern (env : Env) (s : Mailer) (pat : String) :
    List String :=
  match s.storage with
  | Storage.localMem =>
      s.waitlist.filter (fun email => strIncludes email.toLower pat.toLower)
  | Storage.db => if jsTruthy s.mongoUri then env.dbFind pat else []
  | Storage.sql => if s.hasSqlConnection then env.sqlFind pat else []

/-- `sendMail` (lines 346–370): bails out (with `onError`) when the
transporter has no truthy `auth.user`; otherwise performs the
`transporter.sendMail` call — the `n`-th of the run — and emits
`onEmailSent` on success or `onError` on rejection. -/
def sendMail (env : Env) (s : Mailer) (email subject htmlContent : String) :
    Bool × Mailer :=
  if s.authUser = "" then
    (false, emit s (Event.onError email "sendMail"))
  else
    let outcome := env.transport s.transportCalls
    let s1 := { s with transportCalls := s.transportCalls + 1 }
    if outcome then
      (true, emit s1 (Event.onEmailSent email))
    else
      (false, emit s1 (Event.onError email "sendMail"))

/-- `sendConfirmation` (lines 372–386): returns false immediately when the
address is not in the waitlist (only `console.error`, no event, no
transport contact); otherwise builds the message — substituting every
`[Company Name]` occurrence in the body — and hands it to `sendMail`. -/
def sendConfirmation (env : Env) (s : Mailer) (email : String)
    (subjectTemplate bodyTemplate : String → String) : Bool × Mailer :=
  if email ∈ s.waitlist then
    sendMail env s email (subjectTemplate email)
      ((bodyTemplate email).replace "[Company Name]" s.companyName)
  else
    (false, s)

/-- Loop body of `sendConfirmationWithRetry` (lines 424–429): the first
argument is the number of loop iterations still to run
(`retries + 1 - attempt`), the second the current 0-based `attempt`. After
every failed attempt — the final one included — `onEmailRetry(email,
attempt + 1)` is emitted; only the `setTimeout` delay is guarded by
`attempt < retries`, and delays do not affect the modelled state. -/
def sendWithRetryGo (env : Env) (email : String)
    (subjectTemplate bodyTemplate : String → String) :
    Nat → Nat → Mailer → Bool × Mailer
  | 0, _, s => (false, s)
  | n + 1, attempt, s =>
      let r := sendConfirmation env s email subjectTemplate bodyTemplate
      if r.1 then
        (true, r.2)
      else
        sendWithRetryGo env email subjectTemplate bodyTemplate n (attempt + 1)
          (emit r.2 (Event.onEmailRetry email (attempt + 1)))

/-- `sendConfirmationWithRetry` (lines 417–431): `retries + 1` attempts in
total, starting at `attempt = 0`. `delayMs` only feeds `setTimeout`. -/
def sendConfirmationWithRetry (env : Env) (s : Mailer) (email : String)
    (subjectTemplate bodyTemplate : String → String)
    (retries delayMs : Nat) : Bool × Mailer :=
  let _ := delayMs
  sendWithRetryGo env email subjectTemplate bodyTemplate (retries + 1) 0 s

/-- Loop body of `sendBulkConfirmation` (lines 450–453). -/
def sendBulkGo (env : Env) (subjectTemplate bodyTemplate : String → String)
    (retries delayMs : Nat) :
    List String → Nat → Mailer → Nat × Mailer
  | [], successCount, s => (successCount, s)
  | email :: rest, successCount, s =>
      let r := sendConfirmationWithRetry env s email subjectTemplate
        bodyTemplate retries delayMs
      sendBulkGo env subjectTemplate bodyTemplate retries delayMs rest
        (if r.1 then successCount + 1 else successCount) r.2

/-- `sendBulkConfirmation` (lines 441–458): snapshots the waitlist, applies
`sendConfirmationWithRetry` to each address sequentially, and finally emits
`onBulkConfirmationComplete { successCount, total := emails.length }`. -/
def sendBulkConfirmation (env : Env) (s : Mailer)
    (subjectTemplate bodyTemplate : String → String)
    (retries delayMs : Nat) : Nat × Mailer :=
  let emails := (getWaitlist s).1
  let r := sendBulkGo env subjectTemplate bodyTemplate retries delayMs
    emails 0 s
  (r.1, emit r.2 (Event.onBulkConfirmationComplete r.1 emails.length))

/-- The characters matched by `\s` in a JS regular expression. -/
def jsSpaceChars : List Char :=
  [' ', '\t', '\n', '\r', Char.ofNat 11, Char.ofNat 12, Char.ofNat 0xa0,
    Char.ofNat 0x1680, Char.ofNat 0x2000, Char.ofNat 0x2001,
    Char.ofNat 0x2002, Char.ofNat 0x2003, Char.ofNat 0x2004,
    Char.ofNat 0x2005, Char.ofNat 0x2006, Char.ofNat 0x2007,
    Char.ofNat 0x2008, Char.ofNat 0x2009, Char.ofNat 0x200a,
    Char.ofNat 0x2028, Char.ofNat 0x2029, Char.ofNat 0x202f,
    Char.ofNat 0x205f, Char.ofNat 0x3000, Char.ofNat 0xfeff]

/-- Whether `\s` matches the character. -/
def jsIsSpace (c : Char) : Bool :=
  decide (c ∈ jsSpaceChars)

/-- Longest `\s*` run at the front. -/
def takeSpaces : List Char → List Char
  | [] => []
  | c :: cs => if jsIsSpace c then c :: takeSpaces cs else []

/-- Remainder after the longest `\s*` run at the front. -/
def dropSpaces : List Char → List Char
  | [] => []
  | c :: cs => if jsIsSpace c then dropSpaces cs else c :: cs

/-- Literal-prefix match: `some r` when the second list is the first
followed by `r`. -/
def stripPrefixCh : List Char → List Char → Option (List Char)
  | [], s => some s
  | _ :: _, [] => none
  | p :: ps, c :: cs => if p = c then stripPrefixCh ps cs else none

/-- Attempt of the regex `{{\s*key\s*}}` at the start of `s`: on success,
`some (matched, rest)` where `matched` is the exact text the regex consumed
and `rest` the remainder of `s`. (`\s*` is greedy; no backtracking is needed
because for the keys in scope — nonempty alphanumeric, as in the spec's
token format — the key can neither start nor end with a space.) -/
def matchToken (key : List Char) (s : List Char) :
    Option (List Char × List Char) :=
  match s with
  | a :: b :: r1 =>
      if a = '{' ∧ b = '{' then
        match stripPrefixCh key (dropSpaces r1) with
        | some r3 =>
            match dropSpaces r3 with
            | c :: d :: r5 =>
                if c = '}' ∧ d = '}' then
                  some ('{' :: '{' ::
                    (takeSpaces r1 ++ key ++ takeSpaces r3 ++ ['}', '}']), r5)
                else none
            | _ => none
        | none => none
      else none
  | _ => none

/-- The backquote character (code 96). -/
def backquote : Char := Char.ofNat 96

/-- JS `GetSubstitution` applied to a string replacement value: `$$` yields
`$`, `$&` the matched text, a backquote-`$` the part of the original string
before the match, `$'` the part after it; the regex `{{\s*key\s*}}` has no
capture groups, so `$n` stays literal. `m` is the matched text, `before`
and `after` the surrounding parts of the subject string. -/
def expandDollar (m before after : List Char) : List Char → List Char
  | [] => []
  | c :: rest =>
      if c = '$' then
        match rest with
        | [] => ['$']
        | d :: rest' =>
            if d = '$' then '$' :: expandDollar m before after rest'
            else if d = '&' then m ++ expandDollar m before after rest'
            else if d = backquote then before ++ expandDollar m before after rest'
            else if d = '\'' then after ++ expandDollar m before after rest'
            else '$' :: expandDollar m before after (d :: rest')
      else c :: expandDollar m before after rest

/-- Global left-to-right replacement loop of `String.prototype.replace`
with a `g` regex: at each position try the token match; on success emit the
(`$`-expanded) value and resume after the match, otherwise keep one
character. `before` accumulates the already-consumed part of the original
string (for backquote-`$` and `$'`); the fuel is an upper bound on the
remaining length, so with initial fuel `s.length` the loop never starves. -/
def replaceGo (key value : List Char) : Nat → List Char → List Char →
    List Char
  | 0, _, s => s
  | fuel + 1, before, s =>
      match matchToken key s with
      | some (m, r) =>
          expandDollar m before r value ++
            replaceGo key value fuel (before ++ m) r
      | none =>
          match s with
          | [] => []
          | c :: cs => c :: replaceGo key value fuel (before ++ [c]) cs

/-- `htmlContent.replace(new RegExp('{{\\s*' + key + '\\s*}}', 'g'), value)`
(line 405–406), modelled for keys that contain no regex metacharacters —
the spec's token keys are alphanumeric. -/
def jsReplaceAll (key value s : String) : String :=
  String.mk (replaceGo key.toList value.toList s.toList.length [] s.toList)

/-- One step of building a JS object literal: a later key overrides the
value of an existing entry in place, a new key is appended. -/
def upsert : List (String × String) → String × String →
    List (String × String)
  | [], kv => [kv]
  | (k, v) :: rest, kv =>
      if k = kv.1 then (k, kv.2) :: rest else (k, v) :: upsert rest kv

/-- Fold `upsert` over a list of updates. -/
def upsertAll (base updates : List (String × String)) :
    List (String × String) :=
  updates.foldl upsert base

/-- `Object.entries({ email, companyName, ...replacements })` (line 403):
the two defaults first, then the spread — explicit replacements override a
default's value in place and append otherwise. -/
def mergedVars (email companyName : String)
    (replacements : List (String × String)) : List (String × String) :=
  upsertAll [("email", email), ("companyName", companyName)] replacements

/-- The substitution loop of lines 404–407: one global replace per entry of
the merged map, in entry order. -/
def renderTemplate (content : String) (vars : List (String × String)) :
    String :=
  vars.foldl (fun acc kv => jsReplaceAll kv.1 kv.2 acc) content

/-- `sendConfirmationFromFile` (lines 388–415): absent address returns
false with no event and no file/transport access; a rejected `readFile`
lands in the `catch` (`onError`, return false) without contacting the
transport; otherwise the template is substituted and handed to
`sendMail`. -/
def sendConfirmationFromFile (env : Env) (s : Mailer) (email : String)
    (subjectTemplate : String → String) (templateFilePath : String)
    (replacements : List (String × String)) : Bool × Mailer :=
  if email ∈ s.waitlist then
    match env.fs templateFilePath with
    | none => (false, emit s (Event.onError email "sendConfirmationFromFile"))
    | some content =>
        sendMail env s email (subjectTemplate email)
          (renderTemplate content (mergedVars email s.companyName
            replacements))
  else
    (false, s)

/-- A decomposition of a template into literal runs and well-formed
`{{ key }}` tokens, used to state what the substitution loop does. -/
inductive Chunk where
  | lit (s : List Char)
  | tok (w1 key w2 : List Char)
deriving DecidableEq

/-- The text a chunk stands for. -/
def Chunk.flatten : Chunk → List Char
  | Chunk.lit s => s
  | Chunk.tok w1 key w2 => '{' :: '{' :: (w1 ++ key ++ w2 ++ ['}', '}'])

/-- The text a chunk list stands for. -/
def flattenChunks (cs : List Chunk) : List Char :=
  (cs.map Chunk.flatten).flatten

/-- Alphanumeric token-key characters (the spec's `{{ key }}` format). -/
def isKeyChar (c : Char) : Bool := c.isAlphanum

/-- Well-formedness of a chunk: literal runs contain no braces; token keys
are nonempty and alphanumeric and the token padding is `\s` whitespace. -/
def Chunk.WF : Chunk → Prop
  | Chunk.lit s => ∀ c ∈ s, c ≠ '{' ∧ c ≠ '}'
  | Chunk.tok w1 key w2 =>
      key ≠ [] ∧ (∀ c ∈ key, isKeyChar c = true) ∧
        (∀ c ∈ w1, jsIsSpace c = true) ∧ (∀ c ∈ w2, jsIsSpace c = true)

/-- Well-formedness of a replacement entry: nonempty alphanumeric key, and
a value free of braces and of `$`. -/
def VarWF (kv : String × String) : Prop :=
  kv.1.toList ≠ [] ∧ (∀ c ∈ kv.1.toList, isKeyChar c = true) ∧
    ∀ c ∈ kv.2.toList, c ≠ '{' ∧ c ≠ '}' ∧ c ≠ '$'

instance (ch : Chunk) : Decidable (Chunk.WF ch) := by
  cases ch with
  | lit s => exact inferInstanceAs (Decidable (∀ c ∈ s, c ≠ '{' ∧ c ≠ '}'))
  | tok w1 key w2 =>
      exact inferInstanceAs (Decidable (key ≠ [] ∧
        (∀ c ∈ key, isKeyChar c = true) ∧
        (∀ c ∈ w1, jsIsSpace c = true) ∧ (∀ c ∈ w2, jsIsSpace c = true)))

instance (kv : String × String) : Decidable (VarWF kv) :=
  inferInstanceAs (Decidable (kv.1.toList ≠ [] ∧
    (∀ c ∈ kv.1.toList, isKeyChar c = true) ∧
    ∀ c ∈ kv.2.toList, c ≠ '{' ∧ c ≠ '}' ∧ c ≠ '$'))

/-- The intended per-token substitution: a token whose key has an entry
becomes that entry's value, any other chunk is untouched. -/
def resolveChunk (vars : List (String × String)) : Chunk → Chunk
  | Chunk.lit s => Chunk.lit s
  | Chunk.tok w1 key w2 =>
      match List.lookup (String.mk key) vars with
      | some v => Chunk.lit v.toList
      | none => Chunk.tok w1 key w2

/-- Per-key substitution over the chunk decomposition, as one pass of the
loop performs it (keys and value already as char lists). -/
def substOne (key value : List Char) : Chunk → Chunk
  | Chunk.lit s => Chunk.lit s
  | Chunk.tok w1 k w2 =>
      if k = key then Chunk.lit value else Chunk.tok w1 k w2

/-- First-some choice on options (JS `a ?? b` on lookup results). -/
def orO (a b : Option String) : Option String :=
  match a with
  | some x => some x
  | none => b

/-- The state with only its `initialized` flag replaced — used to state
that an operation neither reads nor writes the flag. -/
def withInit (b : Bool) (s : Mailer) : Mailer :=
  { s with initialized := b }

/-- The run of `replaceGo` with its canonical fuel. -/
def jsRepl (key value before s : List Char) : List Char :=
  replaceGo key value s.length before s

/-- The block of events a run of all-failing attempts produces: per attempt
an `onError` from `sendMail` followed by the unconditional
`onEmailRetry(email, attempt + 1)`. -/
def failBlock (email : String) : Nat → Nat → List Event
  | 0, _ => []
  | n + 1, attempt =>
      Event.onError email "sendMail" :: Event.onEmailRetry email (attempt + 1)
        :: failBlock email n (attempt + 1)

/-- The attempt numbers carried by the `onEmailRetry` events of a list, in
order. -/
def retryNumbers (es : List Event) : List Nat :=
  es.filterMap fun e =>
    match e with
    | Event.onEmailRetry _ k => some k
    | _ => none

/-- `n` consecutive naturals starting at `start`. -/
def natsFrom : Nat → Nat → List Nat
  | _, 0 => []
  | start, n + 1 => start :: natsFrom (start + 1) n

/-- Every event except the bulk-completion one. -/
def notBulk : Event → Bool
  | Event.onBulkConfirmationComplete _ _ => false
  | _ => true

/-- A complete mail configuration used in the concrete scenarios. -/
def mc0 : MailConfig :=
  { host := some "smtp.example.com", port := some 587,
    user := some "user@example.com", pass := some "secret" }

/-- Local-storage options with company name "Acme". -/
def opts0 : Options :=
  { companyName := some "Acme", mongoUri := none, sqlConfig := false }

/-- Options selecting the MongoDB backend. -/
def optsDb : Options :=
  { companyName := some "Acme",
    mongoUri := some "mongodb://localhost:27017/wl", sqlConfig := false }

/-- A collaborator environment whose validator accepts everything, whose
transport always succeeds and whose file system has no files. -/
def envAllOk : Env :=
  { joiEmailError := fun _ => none
    transport := fun _ => true
    fs := fun _ => none
    dbFind := fun _ => []
    sqlFind := fun _ => []
    dbCount := fun _ _ => 0
    sqlCount := fun _ _ => 0 }

/-- Environment whose transport fails on its first call and succeeds on
every later one. -/
def envFailOnce : Env :=
  { envAllOk with transport := fun n => n != 0 }

/-- Environment whose transport always fails. -/
def envAllFail : Env :=
  { envAllOk with transport := fun _ => false }

/-- Mail configuration whose required `pass` field is missing. -/
def mcMissingPass : MailConfig :=
  { host := some "smtp.example.com", port := some 587,
    user := some "user@example.com", pass := none }

/-- Empty options object. -/
def optsNone : Options :=
  { companyName := none, mongoUri := none, sqlConfig := false }

/-- Every member of the in-memory waitlist is accepted by the validator. -/
def allValid (env : Env) (s : Mailer) : Prop :=
  ∀ e ∈ s.waitlist, env.joiEmailError e = none

/-- A freshly constructed local-storage mailer. -/
def mailer0 : Mailer :=
  constructState Storage.localMem mc0 opts0

/-- `mailer0` after `addEmail("a@x.com")`. -/
def mailerA : Mailer :=
  (addEmail envAllOk mailer0 "a@x.com").2

/-- `mailer0` after adding `"a@x.com"` and `"b@x.com"`. -/
def mailerAB : Mailer :=
  (addEmail envAllOk mailerA "b@x.com").2

/-- A concrete decomposed template: a literal, a whitespace-padded
`email` token and an unmatched `zz` token. -/
def chunksW : List Chunk :=
  [Chunk.lit ['H', 'i', ' '],
   Chunk.tok [' '] ['e', 'm', 'a', 'i', 'l'] [' '],
   Chunk.tok [] ['z', 'z'] []]

/-- Apply a state transformation to the second component of a result
pair. -/
def mapSnd (f : Mailer → Mailer) (p : α × Mailer) : α × Mailer :=
  (p.1, f p.2)

/-! Frame lemmas: no operation reads or writes the `initialized` flag. -/

theorem emit_withInit (b : Bool) (s : Mailer) (e : Event) :
    emit (withInit b s) e = withInit b (emit s e) := rfl

theorem addEmail_withInit (env : Env) (b : Bool) (s : Mailer)
    (email : String) :
    addEmail env (withInit b s) email =
      mapSnd (withInit b) (addEmail env s email) := by
  obtain ⟨st, wl, cn, mu, sq, au, init, ev, tc⟩ := s
  simp only [addEmail, emailExists, withInit, emit, mapSnd]
  split
  · rfl
  · split <;> rfl

theorem removeEmail_withInit (b : Bool) (s : Mailer) (email : String) :
    removeEmail (withInit b s) email =
      mapSnd (withInit b) (removeEmail s email) := by
  obtain ⟨st, wl, cn, mu, sq, au, init, ev, tc⟩ := s
  simp only [removeEmail, withInit, emit, mapSnd]
  split <;> rfl

theorem clearWaitlist_withInit (b : Bool) (s : Mailer) :
    clearWaitlist (withInit b s) = withInit b (clearWaitlist s) := rfl

theorem getWaitlist_withInit (b : Bool) (s : Mailer) :
    getWaitlist (withInit b s) =
      mapSnd (withInit b) (getWaitlist s) := rfl

theorem countWaitlistByDate_withInit (env : Env) (b : Bool) (s : Mailer)
    (startDate endDate : Option Int) :
    countWaitlistByDate env (withInit b s) startDate endDate =
      countWaitlistByDate env s startDate endDate := rfl

theorem findEmailsByPattern_withInit (env : Env) (b : Bool) (s : Mailer)
    (pat : String) :
    findEmailsByPattern env (withInit b s) pat =
      findEmailsByPattern env s pat := rfl

theorem sendMail_withInit (env : Env) (b : Bool) (s : Mailer)
    (email subject htmlContent : String) :
    sendMail env (withInit b s) email subject htmlContent =
      mapSnd (withInit b) (sendMail env s email subject htmlContent) := by
  obtain ⟨st, wl, cn, mu, sq, au, init, ev, tc⟩ := s
  simp only [sendMail, withInit, emit, mapSnd]
  split
  · rfl
  · split <;> rfl

theorem sendConfirmation_withInit (env : Env) (b : Bool) (s : Mailer)
    (email : String) (subjectTemplate bodyTemplate : String → String) :
    sendConfirmation env (withInit b s) email subjectTemplate bodyTemplate =
      mapSnd (withInit b)
        (sendConfirmation env s email subjectTemplate bodyTemplate) := by
  obtain ⟨st, wl, cn, mu, sq, au, init, ev, tc⟩ := s
  simp only [sendConfirmation, withInit]
  split
  · exact sendMail_withInit env b
      (Mailer.mk st wl cn mu sq au init ev tc) email _ _
  · rfl

theorem sendConfirmationFromFile_withInit (env : Env) (b : Bool) (s : Mailer)
    (email : String) (subjectTemplate : String → String)
    (templateFilePath : String) (replacements : List (String × String)) :
    sendConfirmationFromFile env (withInit b s) email subjectTemplate
        templateFilePath replacements =
      mapSnd (withInit b) (sendConfirmationFromFile env s email
        subjectTemplate templateFilePath replacements) := by
  obtain ⟨st, wl, cn, mu, sq, au, init, ev, tc⟩ := s
  simp only [sendConfirmationFromFile, withInit]
  split
  · cases env.fs templateFilePath with
    | none => rfl
    | some content =>
        exact sendMail_withInit env b
          (Mailer.mk st wl cn mu sq au init ev tc) email _ _
  · rfl

theorem sendWithRetryGo_withInit (env : Env) (email : String)
    (subjectTemplate bodyTemplate : String → String) (b : Bool) :
    ∀ (n attempt : Nat) (s : Mailer),
      sendWithRetryGo env email subjectTemplate bodyTemplate n attempt
          (withInit b s) =
        mapSnd (withInit b)
          (sendWithRetryGo env email subjectTemplate bodyTemplate n attempt s)
  | 0, _, _ => rfl
  | n + 1, attempt, s => by
      simp only [sendWithRetryGo,
        sendConfirmation_withInit env b s email subjectTemplate bodyTemplate]
      cases h : sendConfirmation env s email subjectTemplate bodyTemplate with
      | mk r s' =>
          cases r with
          | true => rfl
          | false =>
              show sendWithRetryGo env email subjectTemplate bodyTemplate n
                  (attempt + 1)
                  (emit (withInit b s') (Event.onEmailRetry email (attempt + 1)))
                = _
              rw [emit_withInit]
              exact sendWithRetryGo_withInit env email subjectTemplate
                bodyTemplate b n (attempt + 1) _

theorem sendConfirmationWithRetry_withInit (env : Env) (b : Bool) (s : Mailer)
    (email : String) (subjectTemplate bodyTemplate : String → String)
    (retries delayMs : Nat) :
    sendConfirmationWithRetry env (withInit b s) email subjectTemplate
        bodyTemplate retries delayMs =
      mapSnd (withInit b) (sendConfirmationWithRetry env s email
        subjectTemplate bodyTemplate retries delayMs) :=
  sendWithRetryGo_withInit env email subjectTemplate bodyTemplate b
    (retries + 1) 0 s

theorem sendBulkGo_withInit (env : Env)
    (subjectTemplate bodyTemplate : String → String) (retries delayMs : Nat)
    (b : Bool) :
    ∀ (emails : List String) (successCount : Nat) (s : Mailer),
      sendBulkGo env subjectTemplate bodyTemplate retries delayMs emails
          successCount (withInit b s) =
        mapSnd (withInit b) (sendBulkGo env subjectTemplate bodyTemplate
          retries delayMs emails successCount s)
  | [], _, _ => rfl
  | email :: rest, successCount, s => by
      simp only [sendBulkGo,
        sendConfirmationWithRetry_withInit env b s email subjectTemplate
          bodyTemplate retries delayMs]
      exact sendBulkGo_withInit env subjectTemplate bodyTemplate retries
        delayMs b rest _ _

theorem sendBulkConfirmation_withInit (env : Env) (b : Bool) (s : Mailer)
    (subjectTemplate bodyTemplate : String → String)
    (retries delayMs : Nat) :
    sendBulkConfirmation env (withInit b s) subjectTemplate bodyTemplate
        retries delayMs =
      mapSnd (withInit b) (sendBulkConfirmation env s subjectTemplate
        bodyTemplate retries delayMs) := by
  show (fun r => (r.1, emit r.2
      (Event.onBulkConfirmationComplete r.1 s.waitlist.length)))
      (sendBulkGo env subjectTemplate bodyTemplate retries delayMs
        s.waitlist 0 (withInit b s)) = _
  rw [sendBulkGo_withInit env subjectTemplate bodyTemplate retries delayMs b
    s.waitlist 0 s]
  rfl

/-- C1 (amended). The claim says every public operation invoked before the
instance is Ready fails fast with a "not initialized" error; in
`src/lib/index.ts` no operation consults the `initialized` flag at all.
Amended property, proved here: every public waitlist operation neither
reads nor writes `initialized` — its return value and its effect on every
other state component are identical whether or not initialization has
completed, so before Ready it performs the operation normally instead of
failing. -/
theorem C1_operations_ignore_initialized (env : Env) (b : Bool) (s : Mailer)
    (email pat templateFilePath : String)
    (subjectTemplate bodyTemplate : String → String)
    (replacements : List (String × String)) (startDate endDate : Option Int)
    (retries delayMs : Nat) :
    addEmail env (withInit b s) email =
      mapSnd (withInit b) (addEmail env s email) ∧
    removeEmail (withInit b s) email =
      mapSnd (withInit b) (removeEmail s email) ∧
    clearWaitlist (withInit b s) = withInit b (clearWaitlist s) ∧
    findEmailsByPattern env (withInit b s) pat =
      findEmailsByPattern env s pat ∧
    countWaitlistByDate env (withInit b s) startDate endDate =
      countWaitlistByDate env s startDate endDate ∧
    sendConfirmation env (withInit b s) email subjectTemplate bodyTemplate =
      mapSnd (withInit b)
        (sendConfirmation env s email subjectTemplate bodyTemplate) ∧
    sendConfirmationFromFile env (withInit b s) email subjectTemplate
        templateFilePath replacements =
      mapSnd (withInit b) (sendConfirmationFromFile env s email
        subjectTemplate templateFilePath replacements) ∧
    sendConfirmationWithRetry env (withInit b s) email subjectTemplate
        bodyTemplate retries delayMs =
      mapSnd (withInit b) (sendConfirmationWithRetry env s email
        subjectTemplate bodyTemplate retries delayMs) ∧
    sendBulkConfirmation env (withInit b s) subjectTemplate bodyTemplate
        retries delayMs =
      mapSnd (withInit b) (sendBulkConfirmation env s subjectTemplate
        bodyTemplate retries delayMs) :=
  ⟨addEmail_withInit env b s email,
   removeEmail_withInit b s email,
   clearWaitlist_withInit b s,
   findEmailsByPattern_withInit env b s pat,
   countWaitlistByDate_withInit env b s startDate endDate,
   sendConfirmation_withInit env b s email subjectTemplate bodyTemplate,
   sendConfirmationFromFile_withInit env b s email subjectTemplate
     templateFilePath replacements,
   sendConfirmationWithRetry_withInit env b s email subjectTemplate
     bodyTemplate retries delayMs,
   sendBulkConfirmation_withInit env b s subjectTemplate bodyTemplate
     retries delayMs⟩

/-- C1 (counterexample to the claim as stated). A `'db'`-storage instance is
not yet initialized when the constructor returns, yet `addEmail` succeeds:
it returns true, inserts into the in-memory set and emits `onEmailAdded` —
it neither fails with a "not initialized" error nor queues. -/
theorem C1_counterexample :
    (constructState Storage.db mc0 optsDb).initialized = false ∧
    (addEmail envAllOk (constructState Storage.db mc0 optsDb) "a@x.com").1 =
      true ∧
    (addEmail envAllOk (constructState Storage.db mc0 optsDb)
      "a@x.com").2.waitlist = ["a@x.com"] ∧
    (addEmail envAllOk (constructState Storage.db mc0 optsDb)
      "a@x.com").2.events = [Event.onEmailAdded "a@x.com"] :=
  ⟨rfl, rfl, rfl, rfl⟩

/-- C2. The claim (and the repository's own test suite, which expects
`toThrow('Invalid mail configuration')`) says construction with a missing
transport field throws synchronously; the constructor of
`src/lib/index.ts` performs no validation of `mailConfig`: with `pass`
missing it returns normally — no exception, no synchronously fired event —
and the instance is even immediately `initialized`. Misconfiguration only
surfaces later through the asynchronous `transporter.verify` callback. -/
theorem C2_missing_pass_constructor_returns_ok :
    construct Storage.localMem mcMissingPass optsNone =
      Except.ok (constructState Storage.localMem mcMissingPass optsNone) ∧
    (constructState Storage.localMem mcMissingPass optsNone).events = [] ∧
    (constructState Storage.localMem mcMissingPass optsNone).initialized =
      true :=
  ⟨rfl, rfl, rfl⟩

/-- C4. For a validator-accepted address not yet present, two successive
`addEmail` calls return true then false; the second call leaves the
in-memory set unchanged and appends only `onDuplicateEmail` (the
`duplicateRejected` event) — in particular no second `onEmailAdded`. -/
theorem C4_addEmail_idempotent (env : Env) (s : Mailer) (email : String)
    (hv : env.joiEmailError email = none) (hm : email ∉ s.waitlist) :
    (addEmail env s email).1 = true ∧
    (addEmail env (addEmail env s email).2 email).1 = false ∧
    (addEmail env (addEmail env s email).2 email).2.waitlist =
      (addEmail env s email).2.waitlist ∧
    (addEmail env (addEmail env s email).2 email).2.events =
      (addEmail env s email).2.events ++ [Event.onDuplicateEmail email] := by
  simp [addEmail, validateEmailFormat, emailExists, emit, hv, hm]

/-- C4 witness: the two calls on a concrete fresh local mailer. -/
theorem C4_witness :
    (addEmail envAllOk mailer0 "a@x.com").1 = true ∧
    (addEmail envAllOk (addEmail envAllOk mailer0 "a@x.com").2 "a@x.com").1 =
      false :=
  ⟨(C4_addEmail_idempotent envAllOk mailer0 "a@x.com" rfl (by decide)).1,
   (C4_addEmail_idempotent envAllOk mailer0 "a@x.com" rfl (by decide)).2.1⟩

/-- C7. Sending to an address that is not in the in-memory waitlist fails
closed: both `sendConfirmation` and `sendConfirmationFromFile` return false
with the state completely unchanged — in particular `transportCalls` is
unchanged, so the external transport was not contacted. -/
theorem C7_send_requires_membership (env : Env) (s : Mailer) (email : String)
    (subjectTemplate bodyTemplate : String → String)
    (templateFilePath : String) (replacements : List (String × String))
    (hm : email ∉ s.waitlist) :
    sendConfirmation env s email subjectTemplate bodyTemplate = (false, s) ∧
    sendConfirmationFromFile env s email subjectTemplate templateFilePath
      replacements = (false, s) := by
  constructor
  · simp [sendConfirmation, hm]
  · simp [sendConfirmationFromFile, hm]

/-- C7 witness: a concrete absent address. -/
theorem C7_witness :
    sendConfirmation envAllOk mailer0 "zz@x.com" (fun _ => "subject")
        (fun _ => "body") = (false, mailer0) ∧
    sendConfirmationFromFile envAllOk mailer0 "zz@x.com" (fun _ => "subject")
        "template.html" [] = (false, mailer0) :=
  C7_send_requires_membership envAllOk mailer0 "zz@x.com" (fun _ => "subject")
    (fun _ => "body") "template.html" [] (by decide)

/-- C8. On the `'local'` backend `countWaitlistByDate` ignores both bounds
and returns the size of the in-memory set. -/
theorem C8_countByDateRange_local_ignores_bounds (env : Env) (s : Mailer)
    (startDate endDate : Option Int) (h : s.storage = Storage.localMem) :
    countWaitlistByDate env s startDate endDate = s.waitlist.length := by
  simp [countWaitlistByDate, h]

/-- C8 witness: concrete bounds over a two-element local waitlist. -/
theorem C8_witness :
    countWaitlistByDate envAllOk mailerAB (some 0) (some 5) =
      mailerAB.waitlist.length :=
  C8_countByDateRange_local_ignores_bounds envAllOk mailerAB (some 0)
    (some 5) rfl

/-- C9. The validation invariant for the Local backend: a freshly
constructed local instance satisfies it (empty set), `addEmail` only
inserts addresses the validator accepted, and `removeEmail` /
`clearWaitlist` only remove elements — so every mutating operation
preserves "every member of the in-memory set was accepted by the email
validator". -/
theorem C9_waitlist_validation_invariant (env : Env) (mc : MailConfig)
    (o : Options) (s : Mailer) (email : String) (h : allValid env s) :
    allValid env (constructState Storage.localMem mc o) ∧
    allValid env (addEmail env s email).2 ∧
    allValid env (removeEmail s email).2 ∧
    allValid env (clearWaitlist s) := by
  refine ⟨?_, ?_, ?_, ?_⟩
  · intro e he
    simp [constructState] at he
  · intro e he
    by_cases hv : (validateEmailFormat env email).isValid = false
    · simp [addEmail, hv, emit] at he
      exact h e he
    · by_cases hx : emailExists s email
      · simp [addEmail, hv, hx, emit] at he
        exact h e he
      · simp [addEmail, hv, hx, emit] at he
        rcases he with he | rfl
        · exact h e he
        · cases hj : env.joiEmailError e with
          | none => rfl
          | some m => simp [validateEmailFormat, hj] at hv
  · intro e he
    by_cases hx : email ∈ s.waitlist
    · simp [removeEmail, hx, emit] at he
      exact h e (List.mem_of_mem_erase he)
    · simp [removeEmail, hx] at he
      exact h e he
  · intro e he
    simp [clearWaitlist, emit] at he

/-- C9 witness: the invariant after a concrete `addEmail`. -/
theorem C9_witness :
    allValid envAllOk (addEmail envAllOk mailer0 "a@x.com").2 :=
  (C9_waitlist_validation_invariant envAllOk mc0 opts0 mailer0 "a@x.com"
    (by intro e he; simp [mailer0, constructState] at he)).2.1

/-- C10. `getWaitlist` is a pure snapshot: it returns exactly the members
of the in-memory set at the time of the call (one occurrence each, thanks
to the set's no-duplicates invariant, which construction establishes and
every mutating operation preserves), it leaves the state untouched, and a
second call with no intervening mutation returns an equal list. The
returned array is a copy (`Array.from`), modelled by value semantics. -/
theorem C10_getWaitlist_snapshot (env : Env) (st : Storage) (mc : MailConfig)
    (o : Options) (s : Mailer) (email e : String) (h : s.waitlist.Nodup) :
    (getWaitlist s).2 = s ∧
    (e ∈ (getWaitlist s).1 ↔ e ∈ s.waitlist) ∧
    (getWaitlist s).1.Nodup ∧
    (getWaitlist ((getWaitlist s).2)).1 = (getWaitlist s).1 ∧
    (constructState st mc o).waitlist.Nodup ∧
    (addEmail env s email).2.waitlist.Nodup ∧
    (removeEmail s email).2.waitlist.Nodup ∧
    (clearWaitlist s).waitlist.Nodup := by
  refine ⟨rfl, Iff.rfl, h, rfl, by simp [constructState], ?_, ?_,
    by simp [clearWaitlist, emit]⟩
  · by_cases hv : (validateEmailFormat env email).isValid = false
    · simpa [addEmail, hv, emit] using h
    · by_cases hx : emailExists s email
      · simpa [addEmail, hv, hx, emit] using h
      · simp only [emailExists, decide_eq_true_eq] at hx
        simp [addEmail, hv, emailExists, hx, emit, List.nodup_append, h]
  · by_cases hx : email ∈ s.waitlist
    · simpa [removeEmail, hx, emit] using h.erase email
    · simpa [removeEmail, hx] using h

/-- C10 witness: the snapshot of a concrete two-element waitlist. -/
theorem C10_witness :
    (getWaitlist mailerAB).2 = mailerAB ∧
    ("a@x.com" ∈ (getWaitlist mailerAB).1 ↔ "a@x.com" ∈ mailerAB.waitlist) :=
  ⟨(C10_getWaitlist_snapshot envAllOk Storage.localMem mc0 opts0 mailerAB
      "c@x.com" "a@x.com" (by decide)).1,
   (C10_getWaitlist_snapshot envAllOk Storage.localMem mc0 opts0 mailerAB
      "c@x.com" "a@x.com" (by decide)).2.1⟩

/-! Characterization of the retry loop. -/

theorem sendConfirmation_mem (env : Env) (s : Mailer) (email : String)
    (f g : String → String) (h1 : email ∈ s.waitlist)
    (h2 : ¬s.authUser = "") :
    sendConfirmation env s email f g =
      if env.transport s.transportCalls then
        (true, emit { s with transportCalls := s.transportCalls + 1 }
          (Event.onEmailSent email))
      else
        (false, emit { s with transportCalls := s.transportCalls + 1 }
          (Event.onError email "sendMail")) := by
  simp [sendConfirmation, sendMail, h1, h2]

theorem sendWithRetryGo_allFail (env : Env) (email : String)
    (f g : String → String) :
    ∀ (n attempt : Nat) (s : Mailer), email ∈ s.waitlist →
      ¬s.authUser = "" →
      (∀ i, i < n → env.transport (s.transportCalls + i) = false) →
      sendWithRetryGo env email f g n attempt s =
        (false, { s with
                  transportCalls := s.transportCalls + n,
                  events := s.events ++ failBlock email n attempt }) := by
  intro n
  induction n with
  | zero =>
      intro attempt s h1 h2 ht
      simp [sendWithRetryGo, failBlock]
  | succ n ih =>
      intro attempt s h1 h2 ht
      obtain ⟨st, wl, cn, mu, sq, au, init, ev, tc⟩ := s
      have h0 : env.transport tc = false := by simpa using ht 0 (by omega)
      have ih' := ih (attempt + 1)
        (Mailer.mk st wl cn mu sq au init
          (ev ++ [Event.onError email "sendMail"] ++
            [Event.onEmailRetry email (attempt + 1)]) (tc + 1))
        h1 h2
        (fun i hi => by
          have := ht (i + 1) (by omega)
          simpa [Nat.add_assoc, Nat.add_comm 1 i] using this)
      simp only [sendWithRetryGo,
        sendConfirmation_mem env _ email f g h1 h2, h0, emit] at ih' ⊢
      simp only [Bool.false_eq_true, if_false]
      rw [ih']
      simp [failBlock, Mailer.mk.injEq]
      omega

theorem sendWithRetryGo_firstSuccess (env : Env) (email : String)
    (f g : String → String) :
    ∀ (k n attempt : Nat) (s : Mailer), email ∈ s.waitlist →
      ¬s.authUser = "" → k < n →
      (∀ i, i < k → env.transport (s.transportCalls + i) = false) →
      env.transport (s.transportCalls + k) = true →
      sendWithRetryGo env email f g n attempt s =
        (true, { s with
                 transportCalls := s.transportCalls + k + 1,
                 events := (s.events ++ failBlock email k attempt) ++
                   [Event.onEmailSent email] }) := by
  intro k
  induction k with
  | zero =>
      intro n attempt s h1 h2 hkn ht hk
      cases n with
      | zero => omega
      | succ m =>
          obtain ⟨st, wl, cn, mu, sq, au, init, ev, tc⟩ := s
          simp only [Nat.add_zero] at hk
          simp [sendWithRetryGo, sendConfirmation_mem env _ email f g h1 h2,
            hk, failBlock, emit]
  | succ k ih =>
      intro n attempt s h1 h2 hkn ht hk
      cases n with
      | zero => omega
      | succ m =>
          obtain ⟨st, wl, cn, mu, sq, au, init, ev, tc⟩ := s
          have h0 : env.transport tc = false := by simpa using ht 0 (by omega)
          have ih' := ih m (attempt + 1)
            (Mailer.mk st wl cn mu sq au init
              (ev ++ [Event.onError email "sendMail"] ++
                [Event.onEmailRetry email (attempt + 1)]) (tc + 1))
            h1 h2 (by omega)
            (fun i hi => by
              have := ht (i + 1) (by omega)
              simpa [Nat.add_assoc, Nat.add_comm 1 i] using this)
            (by
              have : tc + 1 + k = tc + (k + 1) := by omega
              rw [this]
              exact hk)
          simp only [sendWithRetryGo,
            sendConfirmation_mem env _ email f g h1 h2, h0, emit] at ih' ⊢
          simp only [Bool.false_eq_true, if_false]
          rw [ih']
          simp [failBlock, Mailer.mk.injEq]
          omega

theorem retryNumbers_failBlock (email : String) :
    ∀ (n a : Nat), retryNumbers (failBlock email n a) = natsFrom (a + 1) n
  | 0, _ => rfl
  | n + 1, a => by
      simp [failBlock, retryNumbers, natsFrom] at *
      exact retryNumbers_failBlock email n (a + 1)

/-- C3 (amended). `sendConfirmationWithRetry` attempts the send up to
`retries + 1` times, returns true as soon as an attempt succeeds and false
if every attempt fails; after EVERY failed attempt — the final one included
(the `attempt < retries` guard only skips the delay, not the emit) — it
emits `onEmailRetry(email, attemptNumber)`, numbering from 1 after the
first failure. Part one: if every one of the `retries + 1` transport
outcomes is a failure, the call returns false, makes exactly `retries + 1`
transport calls and appends `failBlock` — whose retry numbers are
`1, …, retries + 1`, i.e. one `onEmailRetry` per failed attempt, final
attempt included. Part two: if the first success is at 0-based attempt
`k ≤ retries`, the call returns true, makes exactly `k + 1` transport calls
and appends `k` retry events numbered `1, …, k` followed by `onEmailSent`.
Part three: the retry numbers of a `failBlock`. -/
theorem C3_sendWithRetry_semantics (env : Env) (s : Mailer) (email : String)
    (f g : String → String) (retries delayMs : Nat)
    (h1 : email ∈ s.waitlist) (h2 : ¬s.authUser = "") :
    ((∀ i, i ≤ retries → env.transport (s.transportCalls + i) = false) →
      sendConfirmationWithRetry env s email f g retries delayMs =
        (false, { s with
                  transportCalls := s.transportCalls + (retries + 1),
                  events := s.events ++ failBlock email (retries + 1) 0 })) ∧
    (∀ k, k ≤ retries →
      (∀ i, i < k → env.transport (s.transportCalls + i) = false) →
      env.transport (s.transportCalls + k) = true →
      sendConfirmationWithRetry env s email f g retries delayMs =
        (true, { s with
                 transportCalls := s.transportCalls + k + 1,
                 events := (s.events ++ failBlock email k 0) ++
                   [Event.onEmailSent email] })) ∧
    (∀ (n a : Nat),
      retryNumbers (failBlock email n a) = natsFrom (a + 1) n) := by
  refine ⟨?_, ?_, retryNumbers_failBlock email⟩
  · intro ht
    exact sendWithRetryGo_allFail env email f g (retries + 1) 0 s h1 h2
      (fun i hi => ht i (by omega))
  · intro k hk ht hs
    exact sendWithRetryGo_firstSuccess env email f g k (retries + 1) 0 s h1
      h2 (by omega) ht hs

/-- C3 (counterexample to the claim as stated). With `maxRetries = 0` and
an always-failing transport there is a single attempt, which is the final
attempt; the claim says `messageRetried` is not emitted after the final
attempt, so no retry event should fire — but the code emits exactly one,
`onEmailRetry(email, 1)`. -/
theorem C3_counterexample :
    (sendConfirmationWithRetry envAllFail mailerA "a@x.com"
      (fun _ => "subject") (fun _ => "body") 0 1000).1 = false ∧
    retryNumbers ((sendConfirmationWithRetry envAllFail mailerA "a@x.com"
      (fun _ => "subject") (fun _ => "body") 0 1000).2.events) = [1] :=
  ⟨rfl, rfl⟩

/-- C3 witness: the amended theorem applied to the claim's own scenario —
`maxRetries = 1`, transport failing once then succeeding — gives the result
true, exactly two transport calls and exactly one retry event,
`onEmailRetry("a@x.com", 1)`. -/
theorem C3_witness :
    sendConfirmationWithRetry envFailOnce mailerA "a@x.com"
        (fun _ => "subject") (fun _ => "body") 1 100 =
      (true, { mailerA with
               transportCalls := mailerA.transportCalls + 1 + 1,
               events := (mailerA.events ++ failBlock "a@x.com" 1 0) ++
                 [Event.onEmailSent "a@x.com"] }) :=
  ((C3_sendWithRetry_semantics envFailOnce mailerA "a@x.com"
    (fun _ => "subject") (fun _ => "body") 1 100 (by decide)
    (by decide)).2.1) 1 (by omega) (fun i hi => by
      interval_cases i
      · rfl)
    rfl

/-! Event accounting for the bulk send. -/

theorem sendConfirmation_events (env : Env) (s : Mailer) (email : String)
    (f g : String → String) :
    ∃ es, (sendConfirmation env s email f g).2.events = s.events ++ es ∧
      ∀ e ∈ es, notBulk e = true := by
  obtain ⟨st, wl, cn, mu, sq, au, init, ev, tc⟩ := s
  simp only [sendConfirmation, sendMail, emit]
  split
  · split
    · exact ⟨[Event.onError email "sendMail"], rfl, by simp [notBulk]⟩
    · split
      · exact ⟨[Event.onEmailSent email], rfl, by simp [notBulk]⟩
      · exact ⟨[Event.onError email "sendMail"], rfl, by simp [notBulk]⟩
  · exact ⟨[], (List.append_nil _).symm, by simp⟩

theorem sendWithRetryGo_events (env : Env) (email : String)
    (f g : String → String) :
    ∀ (n attempt : Nat) (s : Mailer),
      ∃ es, (sendWithRetryGo env email f g n attempt s).2.events =
        s.events ++ es ∧ ∀ e ∈ es, notBulk e = true := by
  intro n
  induction n with
  | zero =>
      intro attempt s
      exact ⟨[], (List.append_nil _).symm, by simp⟩
  | succ n ih =>
      intro attempt s
      obtain ⟨es1, h1, hb1⟩ := sendConfirmation_events env s email f g
      simp only [sendWithRetryGo]
      cases hr : sendConfirmation env s email f g with
      | mk r2 s2 =>
          rw [hr] at h1
          have h1' : s2.events = s.events ++ es1 := by simpa using h1
          cases r2 with
          | true => exact ⟨es1, h1', hb1⟩
          | false =>
              simp only [Bool.false_eq_true, if_false]
              obtain ⟨es2, h2, hb2⟩ := ih (attempt + 1)
                (emit s2 (Event.onEmailRetry email (attempt + 1)))
              refine ⟨(es1 ++ [Event.onEmailRetry email (attempt + 1)]) ++ es2,
                ?_, ?_⟩
              · rw [h2]
                simp [emit, h1']
              · intro e he
                simp only [List.mem_append, List.mem_singleton] at he
                rcases he with (he | rfl) | he
                · exact hb1 e he
                · rfl
                · exact hb2 e he

theorem sendBulkGo_spec (env : Env) (f g : String → String)
    (retries delayMs : Nat) :
    ∀ (emails : List String) (successCount : Nat) (s : Mailer),
      ∃ results : List Bool, results.length = emails.length ∧
        (sendBulkGo env f g retries delayMs emails successCount s).1 =
          successCount + results.count true ∧
        ∃ es, (sendBulkGo env f g retries delayMs emails
            successCount s).2.events = s.events ++ es ∧
          ∀ e ∈ es, notBulk e = true := by
  intro emails
  induction emails with
  | nil =>
      intro successCount s
      exact ⟨[], rfl, by simp [sendBulkGo],
        ⟨[], (List.append_nil _).symm, by simp⟩⟩
  | cons email rest ih =>
      intro successCount s
      obtain ⟨es1, h1, hb1⟩ :=
        sendWithRetryGo_events env email f g (retries + 1) 0 s
      simp only [sendBulkGo]
      cases hr : sendConfirmationWithRetry env s email f g retries
          delayMs with
      | mk r2 s2 =>
          have h1' : s2.events = s.events ++ es1 := by
            rw [show s2 = (sendConfirmationWithRetry env s email f g retries
                delayMs).2 from by rw [hr]]
            exact h1
          obtain ⟨results, hlen, hcount, es2, h2, hb2⟩ :=
            ih (if r2 = true then successCount + 1 else successCount) s2
          refine ⟨r2 :: results, by simp [hlen], ?_, es1 ++ es2, ?_, ?_⟩
          · rw [hcount]
            cases r2 <;> simp [List.count_cons] <;> omega
          · rw [h2, h1']
            simp
          · intro e he
            rcases List.mem_append.mp he with he | he
            · exact hb1 e he
            · exact hb2 e he

/-- C5. `sendBulkConfirmation` applies `sendConfirmationWithRetry` to every
address of the waitlist snapshot sequentially (one boolean outcome per
address), returns the number of successes, and emits
`onBulkConfirmationComplete { successCount, total }` exactly once, at the
end, with `total` the waitlist size and `successCount` the returned count —
hence `successCount ≤ total`. The final conjuncts check the claim's
concrete scenario: over the two-address set with an always-succeeding
transport it returns 2 and fires `onBulkConfirmationComplete 2 2` once. -/
theorem C5_sendBulk_spec (env : Env) (s : Mailer) (f g : String → String)
    (retries delayMs : Nat) :
    (∃ results : List Bool, results.length = s.waitlist.length ∧
      (sendBulkConfirmation env s f g retries delayMs).1 =
        results.count true) ∧
    (sendBulkConfirmation env s f g retries delayMs).1 ≤
      s.waitlist.length ∧
    (∃ es, (sendBulkConfirmation env s f g retries delayMs).2.events =
        (s.events ++ es) ++ [Event.onBulkConfirmationComplete
          (sendBulkConfirmation env s f g retries delayMs).1
          s.waitlist.length] ∧
      ∀ e ∈ es, notBulk e = true) ∧
    (sendBulkConfirmation envAllOk mailerAB (fun _ => "subject")
      (fun _ => "body") 3 1000).1 = 2 ∧
    (sendBulkConfirmation envAllOk mailerAB (fun _ => "subject")
        (fun _ => "body") 3 1000).2.events =
      mailerAB.events ++ [Event.onEmailSent "a@x.com",
        Event.onEmailSent "b@x.com",
        Event.onBulkConfirmationComplete 2 2] := by
  obtain ⟨results, hlen, hcount, es, hev, hb⟩ :=
    sendBulkGo_spec env f g retries delayMs s.waitlist 0 s
  have hmain : sendBulkConfirmation env s f g retries delayMs =
      (let r := sendBulkGo env f g retries delayMs s.waitlist 0 s
       (r.1, emit r.2
         (Event.onBulkConfirmationComplete r.1 s.waitlist.length))) := rfl
  refine ⟨⟨results, hlen, ?_⟩, ?_, ⟨es, ?_, hb⟩, rfl, rfl⟩
  · rw [hmain]
    simpa using hcount
  · rw [hmain]
    simp only []
    calc (sendBulkGo env f g retries delayMs s.waitlist 0 s).1
        = 0 + results.count true := hcount
      _ ≤ results.length := by
          simpa using List.count_le_length true results
      _ = s.waitlist.length := hlen
  · rw [hmain]
    simp only [emit]
    rw [hev]

/-! Basic facts about the token scanner. -/

theorem stripPrefixCh_self (p : List Char) :
    ∀ r, stripPrefixCh p (p ++ r) = some r := by
  induction p with
  | nil => intro r; rfl
  | cons c cs ih => intro r; simp [stripPrefixCh, ih]

theorem stripPrefixCh_eq_append {p : List Char} :
    ∀ {s r : List Char}, stripPrefixCh p s = some r → s = p ++ r := by
  induction p with
  | nil =>
      intro s r h
      simp only [stripPrefixCh, Option.some.injEq] at h
      simp [h]
  | cons c cs ih =>
      intro s r h
      cases s with
      | nil => simp [stripPrefixCh] at h
      | cons d ds =>
          simp only [stripPrefixCh] at h
          by_cases hcd : c = d
          · subst hcd
            simp only [if_pos rfl] at h
            simp [ih h]
          · simp [if_neg hcd] at h

theorem takeSpaces_append_dropSpaces : ∀ l : List Char,
    takeSpaces l ++ dropSpaces l = l := by
  intro l
  induction l with
  | nil => rfl
  | cons c cs ih =>
      by_cases hc : jsIsSpace c = true
      · simp [takeSpaces, dropSpaces, hc, ih]
      · simp only [Bool.not_eq_true] at hc
        simp [takeSpaces, dropSpaces, hc]

theorem spaces_split (w : List Char) (hw : ∀ c ∈ w, jsIsSpace c = true)
    (c : Char) (hc : jsIsSpace c = false) (t : List Char) :
    takeSpaces (w ++ c :: t) = w ∧ dropSpaces (w ++ c :: t) = c :: t := by
  induction w with
  | nil => simp [takeSpaces, dropSpaces, hc]
  | cons d ds ih =>
      have hd : jsIsSpace d = true := hw d (by simp)
      have := ih (fun x hx => hw x (by simp [hx]))
      simp [takeSpaces, dropSpaces, hd, this]

theorem isKeyChar_not_space (c : Char) (h : isKeyChar c = true) :
    jsIsSpace c = false := by
  by_contra hs
  rw [Bool.not_eq_false] at hs
  have hc : c ∈ jsSpaceChars := by simpa [jsIsSpace] using hs
  fin_cases hc <;> exact absurd h (by decide)

theorem isKeyChar_ne_braces (c : Char) (h : isKeyChar c = true) :
    c ≠ '{' ∧ c ≠ '}' := by
  constructor <;> rintro rfl <;> exact absurd h (by decide)

theorem matchToken_some {key s m r : List Char}
    (h : matchToken key s = some (m, r)) : s = m ++ r ∧ m ≠ [] := by
  cases s with
  | nil => simp [matchToken] at h
  | cons a tail =>
  cases tail with
  | nil => simp [matchToken] at h
  | cons b r1 =>
  simp only [matchToken] at h
  by_cases hab : a = '{' ∧ b = '{'
  case neg => simp [hab] at h
  obtain ⟨rfl, rfl⟩ := hab
  rw [if_pos ⟨rfl, rfl⟩] at h
  cases hstrip : stripPrefixCh key (dropSpaces r1) with
  | none => rw [hstrip] at h; simp at h
  | some r3 =>
  rw [hstrip] at h
  dsimp only at h
  cases hdrop : dropSpaces r3 with
  | nil => rw [hdrop] at h; simp at h
  | cons c t =>
  cases t with
  | nil => rw [hdrop] at h; simp at h
  | cons d r5 =>
  rw [hdrop] at h
  dsimp only at h
  by_cases hcd : c = '}' ∧ d = '}'
  case neg => simp [hcd] at h
  obtain ⟨rfl, rfl⟩ := hcd
  rw [if_pos ⟨rfl, rfl⟩] at h
  simp only [Option.some.injEq, Prod.mk.injEq] at h
  obtain ⟨hm, hr⟩ := h
  subst hm
  subst hr
  have e1 : takeSpaces r1 ++ dropSpaces r1 = r1 :=
    takeSpaces_append_dropSpaces r1
  have e2 : dropSpaces r1 = key ++ r3 := stripPrefixCh_eq_append hstrip
  have e3 : takeSpaces r3 ++ dropSpaces r3 = r3 :=
    takeSpaces_append_dropSpaces r3
  have key5 : takeSpaces r1 ++ key ++ takeSpaces r3 ++ ['}', '}'] ++
      r5 = r1 := by
    calc takeSpaces r1 ++ key ++ takeSpaces r3 ++ ['}', '}'] ++ r5
        = takeSpaces r1 ++ (key ++ (takeSpaces r3 ++
            ('}' :: '}' :: r5))) := by simp [List.append_assoc]
      _ = takeSpaces r1 ++ (key ++ (takeSpaces r3 ++
            dropSpaces r3)) := by rw [hdrop]
      _ = takeSpaces r1 ++ (key ++ r3) := by rw [e3]
      _ = takeSpaces r1 ++ dropSpaces r1 := by rw [e2]
      _ = r1 := e1
  refine ⟨?_, by simp⟩
  rw [List.cons_append, List.cons_append, key5]

theorem replaceGo_nil (key value : List Char) :
    ∀ (fuel : Nat) (before : List Char),
      replaceGo key value fuel before [] = []
  | 0, _ => rfl
  | _ + 1, _ => by simp [replaceGo, matchToken]

theorem replaceGo_eq (key value : List Char) :
    ∀ (fuel₁ fuel₂ : Nat) (s before : List Char), s.length ≤ fuel₁ →
      s.length ≤ fuel₂ →
      replaceGo key value fuel₁ before s =
        replaceGo key value fuel₂ before s := by
  intro fuel₁
  induction fuel₁ with
  | zero =>
      intro fuel₂ s before h₁ h₂
      have hs : s = [] := by
        cases s with
        | nil => rfl
        | cons c cs => simp at h₁
      subst hs
      rw [replaceGo_nil, replaceGo_nil]
  | succ fuel₁ ih =>
      intro fuel₂ s before h₁ h₂
      cases s with
      | nil => rw [replaceGo_nil, replaceGo_nil]
      | cons c cs =>
          cases fuel₂ with
          | zero => simp at h₂
          | succ f₂ =>
              simp only [List.length_cons] at h₁ h₂
              simp only [replaceGo]
              cases hm : matchToken key (c :: cs) with
              | none =>
                  simp only []
                  congr 1
                  exact ih f₂ cs (before ++ [c]) (by omega) (by omega)
              | some mr =>
                  obtain ⟨m, r⟩ := mr
                  obtain ⟨hs, hm0⟩ := matchToken_some hm
                  have hr : r.length ≤ cs.length := by
                    have hlen : (c :: cs).length = m.length + r.length := by
                      rw [hs]; simp
                    have hm1 : 1 ≤ m.length := by
                      cases m with
                      | nil => exact absurd rfl hm0
                      | cons x xs => simp
                    simp at hlen
                    omega
                  simp only []
                  congr 1
                  exact ih f₂ r (before ++ m) (by omega) (by omega)

theorem jsRepl_nil (key value before : List Char) :
    jsRepl key value before [] = [] := rfl

theorem jsRepl_match {key s m r : List Char} (value : List Char)
    (h : matchToken key s = some (m, r)) (before : List Char) :
    jsRepl key value before s =
      expandDollar m before r value ++ jsRepl key value (before ++ m) r := by
  obtain ⟨hs, hm0⟩ := matchToken_some h
  cases s with
  | nil => simp [matchToken] at h
  | cons c cs =>
      have hr : r.length ≤ cs.length := by
        have hlen : (c :: cs).length = m.length + r.length := by
          rw [hs]; simp
        have hm1 : 1 ≤ m.length := by
          cases m with
          | nil => exact absurd rfl hm0
          | cons x xs => simp
        simp at hlen
        omega
      show replaceGo key value (cs.length + 1) before (c :: cs) = _
      simp only [replaceGo, h]
      congr 1
      exact replaceGo_eq key value cs.length r.length r (before ++ m) hr
        (Nat.le_refl _)

theorem jsRepl_no_match {key : List Char} {c : Char} {cs : List Char}
    (value : List Char) (h : matchToken key (c :: cs) = none)
    (before : List Char) :
    jsRepl key value before (c :: cs) =
      c :: jsRepl key value (before ++ [c]) cs := by
  show replaceGo key value (cs.length + 1) before (c :: cs) = _
  simp only [replaceGo, h]
  rfl

theorem matchToken_cons_ne (key : List Char) {c : Char} (cs : List Char)
    (hc : c ≠ '{') : matchToken key (c :: cs) = none := by
  cases cs with
  | nil => rfl
  | cons b r1 =>
      simp only [matchToken]
      rw [if_neg]
      rintro ⟨rfl, -⟩
      exact hc rfl

theorem matchToken_cons2_ne (key : List Char) {c d : Char}
    (cs : List Char) (hd : d ≠ '{') :
    matchToken key (c :: d :: cs) = none := by
  simp only [matchToken]
  rw [if_neg]
  rintro ⟨-, rfl⟩
  exact hd rfl

theorem matchToken_tok_self (key w1 w2 rest : List Char) (hk : key ≠ [])
    (hkc : ∀ c ∈ key, isKeyChar c = true)
    (h1 : ∀ c ∈ w1, jsIsSpace c = true)
    (h2 : ∀ c ∈ w2, jsIsSpace c = true) :
    matchToken key (Chunk.flatten (Chunk.tok w1 key w2) ++ rest) =
      some (Chunk.flatten (Chunk.tok w1 key w2), rest) := by
  cases key with
  | nil => exact absurd rfl hk
  | cons k0 kt =>
  have hk0 : jsIsSpace k0 = false :=
    isKeyChar_not_space k0 (hkc k0 (by simp))
  have hflat : Chunk.flatten (Chunk.tok w1 (k0 :: kt) w2) ++ rest =
      '{' :: '{' :: (w1 ++ (k0 :: (kt ++ (w2 ++ ('}' :: '}' :: rest))))) := by
    simp [Chunk.flatten, List.append_assoc]
  rw [hflat]
  simp only [matchToken]
  rw [if_pos (by simp)]
  have hsp := spaces_split w1 h1 k0 hk0 (kt ++ (w2 ++ ('}' :: '}' :: rest)))
  rw [hsp.2, hsp.1]
  rw [show (k0 : Char) :: (kt ++ (w2 ++ ('}' :: '}' :: rest))) =
      (k0 :: kt) ++ (w2 ++ ('}' :: '}' :: rest)) from by simp]
  rw [stripPrefixCh_self]
  dsimp only
  have hsp2 := spaces_split w2 h2 '}' (by decide) ('}' :: rest)
  rw [hsp2.2]
  dsimp only
  rw [if_pos (by simp), hsp2.1]
  simp [Chunk.flatten, List.append_assoc]

theorem strip_key_tok {w2 rest : List Char}
    (hw2 : ∀ c ∈ w2, jsIsSpace c = true) :
    ∀ (k' key r : List Char), (∀ c ∈ key, isKeyChar c = true) →
      (∀ c ∈ k', isKeyChar c = true) →
      stripPrefixCh key (k' ++ (w2 ++ '}' :: '}' :: rest)) = some r →
      (key = k' ∧ r = w2 ++ '}' :: '}' :: rest) ∨
        (∃ c t, r = c :: t ∧ isKeyChar c = true) := by
  intro k'
  induction k' with
  | nil =>
      intro key r hkey hk' h
      cases key with
      | nil =>
          left
          simp only [List.nil_append, stripPrefixCh, Option.some.injEq] at h
          exact ⟨rfl, h.symm⟩
      | cons a kt =>
          exfalso
          have ha : isKeyChar a = true := hkey a (by simp)
          cases w2 with
          | nil =>
              simp only [List.nil_append, stripPrefixCh] at h
              rw [if_neg (isKeyChar_ne_braces a ha).2] at h
              exact Option.noConfusion h
          | cons d w2' =>
              have hd : jsIsSpace d = true := hw2 d (by simp)
              simp only [List.nil_append, List.cons_append,
                stripPrefixCh] at h
              rw [if_neg ?_] at h
              · exact Option.noConfusion h
              · rintro rfl
                rw [isKeyChar_not_space a ha] at hd
                exact Bool.noConfusion hd
  | cons b ks ih =>
      intro key r hkey hk' h
      cases key with
      | nil =>
          right
          simp only [stripPrefixCh, Option.some.injEq] at h
          exact ⟨b, ks ++ (w2 ++ '}' :: '}' :: rest), by simp [← h],
            hk' b (by simp)⟩
      | cons a kt =>
          simp only [List.cons_append, stripPrefixCh] at h
          by_cases hab : a = b
          · subst hab
            rw [if_pos rfl] at h
            rcases ih kt r (fun c hc => hkey c (by simp [hc]))
                (fun c hc => hk' c (by simp [hc])) h with ⟨hke, hr⟩ | hr
            · left
              exact ⟨by rw [hke], hr⟩
            · right
              exact hr
          · rw [if_neg hab] at h
            exact Option.noConfusion h

theorem matchToken_tok_ne (key w1 k' w2 rest : List Char) (hne : key ≠ k')
    (hkey : ∀ c ∈ key, isKeyChar c = true) (hk0 : k' ≠ [])
    (hk' : ∀ c ∈ k', isKeyChar c = true)
    (h1 : ∀ c ∈ w1, jsIsSpace c = true)
    (h2 : ∀ c ∈ w2, jsIsSpace c = true) :
    matchToken key (Chunk.flatten (Chunk.tok w1 k' w2) ++ rest) = none := by
  cases k' with
  | nil => exact absurd rfl hk0
  | cons k0 kt =>
  have hk0' : jsIsSpace k0 = false :=
    isKeyChar_not_space k0 (hk' k0 (by simp))
  have hflat : Chunk.flatten (Chunk.tok w1 (k0 :: kt) w2) ++ rest =
      '{' :: '{' :: (w1 ++ (k0 :: (kt ++ (w2 ++ ('}' :: '}' :: rest))))) := by
    simp [Chunk.flatten, List.append_assoc]
  rw [hflat]
  simp only [matchToken]
  rw [if_pos (by simp)]
  have hsp := spaces_split w1 h1 k0 hk0' (kt ++ (w2 ++ ('}' :: '}' :: rest)))
  rw [hsp.2]
  cases hstrip : stripPrefixCh key
      (k0 :: (kt ++ (w2 ++ ('}' :: '}' :: rest)))) with
  | none => rfl
  | some r =>
      have hsk := strip_key_tok h2 (k0 :: kt) key r hkey hk' (by
        rw [show (k0 :: kt) ++ (w2 ++ ('}' :: '}' :: rest)) =
          k0 :: (kt ++ (w2 ++ ('}' :: '}' :: rest))) from by simp]
        exact hstrip)
      rcases hsk with ⟨hke, hr⟩ | ⟨c, t, rfl, hc⟩
      · exact absurd hke hne
      · dsimp only
        rw [show dropSpaces (c :: t) = c :: t from by
          simp [dropSpaces, isKeyChar_not_space c hc]]
        cases t with
        | nil => rfl
        | cons d t' =>
            dsimp only
            have hcne : ¬(c = '}' ∧ d = '}') := by
              rintro ⟨rfl, -⟩
              exact absurd hc (by decide)
            rw [if_neg hcne]

theorem expandDollar_no_dollar (m before after : List Char) :
    ∀ (v : List Char), (∀ c ∈ v, c ≠ '$') →
      expandDollar m before after v = v
  | [], _ => rfl
  | c :: rest, h => by
      have hc : c ≠ '$' := h c (by simp)
      rw [expandDollar.eq_def]
      dsimp only
      rw [if_neg hc, expandDollar_no_dollar m before after rest
        (fun x hx => h x (by simp [hx]))]

theorem jsRepl_lit_run (key value : List Char) :
    ∀ (s : List Char), (∀ c ∈ s, c ≠ '{') → ∀ (before rest : List Char),
      jsRepl key value before (s ++ rest) =
        s ++ jsRepl key value (before ++ s) rest := by
  intro s
  induction s with
  | nil =>
      intro h before rest
      simp
  | cons c t ih =>
      intro h before rest
      have hc : c ≠ '{' := h c (by simp)
      rw [List.cons_append,
        jsRepl_no_match value (matchToken_cons_ne key (t ++ rest) hc) before,
        ih (fun x hx => h x (by simp [hx])) (before ++ [c]) rest]
      simp [List.append_assoc]

theorem jsRepl_tok_skip (key value w1 k' w2 : List Char) (hne : key ≠ k')
    (hkey : ∀ c ∈ key, isKeyChar c = true) (hk0 : k' ≠ [])
    (hk' : ∀ c ∈ k', isKeyChar c = true)
    (h1 : ∀ c ∈ w1, jsIsSpace c = true)
    (h2 : ∀ c ∈ w2, jsIsSpace c = true) (before rest : List Char) :
    jsRepl key value before (Chunk.flatten (Chunk.tok w1 k' w2) ++ rest) =
      Chunk.flatten (Chunk.tok w1 k' w2) ++
        jsRepl key value (before ++ Chunk.flatten (Chunk.tok w1 k' w2))
          rest := by
  have hm1 : matchToken key (Chunk.flatten (Chunk.tok w1 k' w2) ++ rest) =
      none := matchToken_tok_ne key w1 k' w2 rest hne hkey hk0 hk' h1 h2
  have e : Chunk.flatten (Chunk.tok w1 k' w2) ++ rest =
      '{' :: '{' :: ((w1 ++ k' ++ w2 ++ ['}', '}']) ++ rest) := by
    simp [Chunk.flatten]
  rw [e] at hm1
  obtain ⟨d, cs', hd, hdne⟩ : ∃ d cs',
      (w1 ++ k' ++ w2 ++ ['}', '}']) ++ rest = d :: cs' ∧ d ≠ '{' := by
    cases w1 with
    | nil =>
        cases k' with
        | nil => exact absurd rfl hk0
        | cons k0 kt =>
            exact ⟨k0, kt ++ w2 ++ ['}', '}'] ++ rest,
              by simp [List.append_assoc],
              (isKeyChar_ne_braces k0 (hk' k0 (by simp))).1⟩
    | cons a w1' =>
        refine ⟨a, (w1' ++ k' ++ w2 ++ ['}', '}']) ++ rest,
          by simp [List.append_assoc], ?_⟩
        rintro rfl
        exact absurd (h1 '{' (by simp)) (by decide)
  have hm2 : matchToken key
      ('{' :: ((w1 ++ k' ++ w2 ++ ['}', '}']) ++ rest)) = none := by
    rw [hd]
    exact matchToken_cons2_ne key cs' hdne
  have hbody : ∀ c ∈ w1 ++ k' ++ w2 ++ ['}', '}'], c ≠ '{' := by
    intro c hc
    simp only [List.mem_append, List.mem_cons, List.mem_singleton] at hc
    rcases hc with ((hc | hc) | hc) | (hc | hc | hc)
    · rintro rfl
      exact absurd (h1 '{' hc) (by decide)
    · exact (isKeyChar_ne_braces c (hk' c hc)).1
    · rintro rfl
      exact absurd (h2 '{' hc) (by decide)
    · subst hc; decide
    · subst hc; decide
    · cases hc
  rw [e, jsRepl_no_match value hm1 before,
    jsRepl_no_match value hm2 (before ++ ['{']),
    jsRepl_lit_run key value (w1 ++ k' ++ w2 ++ ['}', '}']) hbody
      ((before ++ ['{']) ++ ['{']) rest]
  rw [show ((before ++ ['{']) ++ ['{']) ++ (w1 ++ k' ++ w2 ++ ['}', '}']) =
    before ++ Chunk.flatten (Chunk.tok w1 k' w2) from by
      simp [Chunk.flatten, List.append_assoc]]
  simp [Chunk.flatten, List.append_assoc]

theorem jsRepl_tok_self (key value w1 w2 : List Char) (hk : key ≠ [])
    (hkc : ∀ c ∈ key, isKeyChar c = true)
    (h1 : ∀ c ∈ w1, jsIsSpace c = true)
    (h2 : ∀ c ∈ w2, jsIsSpace c = true)
    (hval : ∀ c ∈ value, c ≠ '$') (before rest : List Char) :
    jsRepl key value before (Chunk.flatten (Chunk.tok w1 key w2) ++ rest) =
      value ++
        jsRepl key value (before ++ Chunk.flatten (Chunk.tok w1 key w2))
          rest := by
  rw [jsRepl_match value
    (matchToken_tok_self key w1 w2 rest hk hkc h1 h2) before,
    expandDollar_no_dollar _ _ _ value hval]

theorem substOne_wf (key value : List Char)
    (hval : ∀ c ∈ value, c ≠ '{' ∧ c ≠ '}' ∧ c ≠ '$') :
    ∀ ch, Chunk.WF ch → Chunk.WF (substOne key value ch) := by
  intro ch h
  cases ch with
  | lit s => exact h
  | tok w1 k w2 =>
      by_cases hkk : k = key
      · simp only [substOne, if_pos hkk]
        exact fun c hc => ⟨(hval c hc).1, (hval c hc).2.1⟩
      · simp only [substOne, if_neg hkk]
        exact h

theorem jsRepl_chunks (key value : List Char) (hk : key ≠ [])
    (hkc : ∀ c ∈ key, isKeyChar c = true)
    (hval : ∀ c ∈ value, c ≠ '{' ∧ c ≠ '}' ∧ c ≠ '$') :
    ∀ (cs : List Chunk), (∀ ch ∈ cs, Chunk.WF ch) → ∀ (before : List Char),
      jsRepl key value before (flattenChunks cs) =
        flattenChunks (cs.map (substOne key value)) := by
  intro cs
  induction cs with
  | nil =>
      intro h before
      simp [flattenChunks, jsRepl_nil]
  | cons ch cs' ih =>
      intro h before
      have hch := h ch (by simp)
      have hcs' : ∀ c ∈ cs', Chunk.WF c := fun c hc => h c (by simp [hc])
      cases ch with
      | lit s =>
          have hs : ∀ c ∈ s, c ≠ '{' := fun c hc => (hch c hc).1
          rw [show flattenChunks (Chunk.lit s :: cs') =
              s ++ flattenChunks cs' from by simp [flattenChunks,
                Chunk.flatten],
            jsRepl_lit_run key value s hs before (flattenChunks cs'),
            ih hcs' (before ++ s)]
          simp [flattenChunks, substOne, Chunk.flatten]
      | tok w1 k w2 =>
          obtain ⟨hk0, hkc', hw1, hw2⟩ := hch
          rw [show flattenChunks (Chunk.tok w1 k w2 :: cs') =
            Chunk.flatten (Chunk.tok w1 k w2) ++ flattenChunks cs' from by
              simp [flattenChunks]]
          by_cases hkk : k = key
          · subst hkk
            rw [jsRepl_tok_self k value w1 w2 hk0 hkc' hw1 hw2
                (fun c hc => (hval c hc).2.2) before (flattenChunks cs'),
              ih hcs' _]
            simp [flattenChunks, substOne, Chunk.flatten]
          · rw [jsRepl_tok_skip key value w1 k w2
                (fun hh => hkk hh.symm) hkc hk0 hkc' hw1 hw2 before
                (flattenChunks cs'),
              ih hcs' _]
            simp [flattenChunks, substOne, hkk]

theorem resolveChunk_nil (ch : Chunk) : resolveChunk [] ch = ch := by
  cases ch <;> simp [resolveChunk, List.lookup]

theorem renderTemplate_chunks :
    ∀ (vars : List (String × String)) (cs : List Chunk),
      (∀ kv ∈ vars, VarWF kv) → (∀ ch ∈ cs, Chunk.WF ch) →
      renderTemplate (String.mk (flattenChunks cs)) vars =
        String.mk (flattenChunks (cs.map (resolveChunk vars))) := by
  intro vars
  induction vars with
  | nil =>
      intro cs hv hcs
      show String.mk (flattenChunks cs) = _
      congr 1
      rw [List.map_congr_left (fun ch _ => resolveChunk_nil ch)]
      simp
  | cons kv vs ih =>
      intro cs hv hcs
      obtain ⟨k, v⟩ := kv
      have hkv : VarWF (k, v) := hv (k, v) (by simp)
      show renderTemplate (jsReplaceAll k v (String.mk (flattenChunks cs)))
          vs = _
      have hstep : jsReplaceAll k v (String.mk (flattenChunks cs)) =
          String.mk (flattenChunks (cs.map (substOne k.toList v.toList))) := by
        show String.mk (jsRepl k.toList v.toList [] (flattenChunks cs)) = _
        rw [jsRepl_chunks k.toList v.toList hkv.1 hkv.2.1 hkv.2.2 cs hcs []]
      rw [hstep, ih (cs.map (substOne k.toList v.toList))
        (fun x hx => hv x (by simp [hx]))
        (fun ch hch => by
          rcases List.mem_map.mp hch with ⟨ch0, hch0, rfl⟩
          exact substOne_wf k.toList v.toList hkv.2.2 ch0 (hcs ch0 hch0))]
      congr 1
      rw [List.map_map]
      apply congrArg
      apply List.map_congr_left
      intro ch _
      cases ch with
      | lit s => simp [substOne, resolveChunk]
      | tok w1 kk w2 =>
          by_cases hkk : kk = k.toList
          · subst hkk
            have hbeq : (String.mk k.toList == k) = true := by simp
            simp [substOne, resolveChunk, List.lookup, hbeq]
          · have hbeq : (String.mk kk == k) = false := by
              rw [beq_eq_false_iff_ne]
              intro he
              apply hkk
              rw [← he]
              rfl
            have hkk' : ¬kk = k.data := hkk
            simp [substOne, resolveChunk, List.lookup, hkk', hbeq]

theorem lookup_eq_none_keys (k : String) :
    ∀ (l : List (String × String)), k ∉ l.map Prod.fst →
      List.lookup k l = none := by
  intro l
  induction l with
  | nil => intro h; rfl
  | cons kv rest ih =>
      intro h
      obtain ⟨a, b⟩ := kv
      simp only [List.map_cons, List.mem_cons] at h
      push_neg at h
      have hka : (k == a) = false := by
        rw [beq_eq_false_iff_ne]
        exact h.1
      simp [List.lookup, hka, ih h.2]

theorem lookup_upsert (k' v' k : String) :
    ∀ (base : List (String × String)),
      List.lookup k (upsert base (k', v')) =
        if k = k' then some v' else List.lookup k base := by
  intro base
  induction base with
  | nil =>
      by_cases hk : k = k'
      · simp [upsert, List.lookup, hk]
      · have : (k == k') = false := by rw [beq_eq_false_iff_ne]; exact hk
        simp [upsert, List.lookup, hk, this]
  | cons kv rest ih =>
      obtain ⟨a, b⟩ := kv
      by_cases hak : a = k'
      · subst hak
        simp only [upsert, if_pos rfl]
        by_cases hk : k = a
        · simp [List.lookup, hk]
        · have : (k == a) = false := by rw [beq_eq_false_iff_ne]; exact hk
          simp [List.lookup, this, hk]
      · simp only [upsert, if_neg hak]
        by_cases hk : k = a
        · subst hk
          simp [List.lookup, hak]
        · have hka : (k == a) = false := by
            rw [beq_eq_false_iff_ne]; exact hk
          simp [List.lookup, hka, ih]

theorem lookup_upsertAll :
    ∀ (updates base : List (String × String)),
      (updates.map Prod.fst).Nodup → ∀ (k : String),
      List.lookup k (upsertAll base updates) =
        orO (List.lookup k updates) (List.lookup k base) := by
  intro updates
  induction updates with
  | nil =>
      intro base h k
      simp [upsertAll, List.lookup, orO]
  | cons kv us ih =>
      intro base h k
      obtain ⟨k', v'⟩ := kv
      simp only [List.map_cons, List.nodup_cons] at h
      rw [show upsertAll base ((k', v') :: us) =
        upsertAll (upsert base (k', v')) us from rfl]
      rw [ih (upsert base (k', v')) h.2 k, lookup_upsert]
      by_cases hk : k = k'
      · subst hk
        have hnone : List.lookup k us = none :=
          lookup_eq_none_keys k us h.1
        simp [List.lookup, orO, hnone]
      · have hka : (k == k') = false := by
          rw [beq_eq_false_iff_ne]; exact hk
        simp [List.lookup, orO, hka, hk]

/-- C6 (amended). `sendConfirmationFromFile` substitutes templates by one
global regex replace per entry of the merged map, in entry order, with JS
`$`-pattern expansion of the replacement value — so values are NOT always
inserted verbatim (see the counterexample). Amended property, proved here:
(1) the merged map is `{email, companyName}` first, then the spread
replacements, so an explicit replacement overrides a default's value
(lookup in the merged map is lookup in the replacements, with the defaults
as fallback); (2) for templates decomposable into brace-free literals and
well-formed `{{ key }}` tokens (nonempty alphanumeric keys, `\s` padding)
and maps whose keys are alphanumeric and whose values contain no brace and
no `$`, the loop replaces every token that has a matching entry with that
entry's value and leaves every other character — unmatched tokens included
— unchanged; (3) if the template file cannot be read, the send returns
false after emitting `onError`, without contacting the transport. -/
theorem C6_template_substitution (env : Env) (s : Mailer) (email : String)
    (subjectTemplate : String → String) (templateFilePath : String)
    (replacements : List (String × String)) (e cn k : String)
    (cs : List Chunk) (vars : List (String × String))
    (hm : email ∈ s.waitlist) :
    ((replacements.map Prod.fst).Nodup →
      List.lookup k (mergedVars e cn replacements) =
        orO (List.lookup k replacements)
          (List.lookup k [("email", e), ("companyName", cn)])) ∧
    ((∀ kv ∈ vars, VarWF kv) → (∀ ch ∈ cs, Chunk.WF ch) →
      renderTemplate (String.mk (flattenChunks cs)) vars =
        String.mk (flattenChunks (cs.map (resolveChunk vars)))) ∧
    (env.fs templateFilePath = none →
      sendConfirmationFromFile env s email subjectTemplate templateFilePath
          replacements =
        (false, emit s (Event.onError email "sendConfirmationFromFile")) ∧
      (sendConfirmationFromFile env s email subjectTemplate templateFilePath
        replacements).2.transportCalls = s.transportCalls) := by
  refine ⟨fun hnd => lookup_upsertAll replacements _ hnd k,
    fun hv hcs => renderTemplate_chunks vars cs hv hcs,
    fun hfs => ⟨?_, ?_⟩⟩
  · simp [sendConfirmationFromFile, hm, hfs]
  · simp [sendConfirmationFromFile, hm, hfs, emit]

/-- C6 (counterexample to the claim as stated). The claim says a matched
token is replaced verbatim with the string value of the matching key; but
`String.prototype.replace` interprets `$` patterns in the replacement
value, so the value `"$$"` for key `k` turns the template `{{k}}` into
`"$"`, not `"$$"`. -/
theorem C6_counterexample :
    renderTemplate (String.mk ['{', '{', 'k', '}', '}'])
        (mergedVars "e@x.com" "Acme" [("k", "$$")]) = "$" ∧
    ("$" : String) ≠ "$$" := by
  constructor
  · rfl
  · decide

/-- C6 witness: the amended theorem applied at concrete inputs — override
lookup on a concrete merged map, substitution over a concrete template
(matched `email` token replaced, unmatched `zz` token untouched), and a
concrete unreadable file. -/
theorem C6_witness :
    List.lookup "k" (mergedVars "e@x.com" "Acme" [("k", "v")]) =
      orO (List.lookup "k" [("k", "v")])
        (List.lookup "k" [("email", "e@x.com"), ("companyName", "Acme")]) ∧
    renderTemplate (String.mk (flattenChunks chunksW))
        (mergedVars "e@x.com" "Acme" [("k", "v")]) =
      String.mk (flattenChunks (chunksW.map
        (resolveChunk (mergedVars "e@x.com" "Acme" [("k", "v")])))) ∧
    sendConfirmationFromFile envAllOk mailerA "a@x.com"
        (fun _ => "subject") "missing.html" [("k", "v")] =
      (false, emit mailerA
        (Event.onError "a@x.com" "sendConfirmationFromFile")) :=
  ⟨(C6_template_substitution envAllOk mailerA "a@x.com" (fun _ => "subject")
      "missing.html" [("k", "v")] "e@x.com" "Acme" "k" chunksW
      (mergedVars "e@x.com" "Acme" [("k", "v")]) (by decide)).1 (by decide),
   (C6_template_substitution envAllOk mailerA "a@x.com" (fun _ => "subject")
      "missing.html" [("k", "v")] "e@x.com" "Acme" "k" chunksW
      (mergedVars "e@x.com" "Acme" [("k", "v")]) (by decide)).2.1
      (by decide) (by decide),
   ((C6_template_substitution envAllOk mailerA "a@x.com" (fun _ => "subject")
      "missing.html" [("k", "v")] "e@x.com" "Acme" "k" chunksW
      (mergedVars "e@x.com" "Acme" [("k", "v")]) (by decide)).2.2 rfl).1⟩

/-- C1 witness: the frame theorem applied at a concrete state and
address. -/
theorem C1_witness :
    addEmail envAllOk (withInit false mailer0) "a@x.com" =
      mapSnd (withInit false) (addEmail envAllOk mailer0 "a@x.com") :=
  (C1_operations_ignore_initialized envAllOk false mailer0 "a@x.com" "pat"
    "template.html" (fun _ => "subject") (fun _ => "body") [] none none 1
    100).1

/-- C5 witness: the bulk-send theorem's concrete scenario conjunct. -/
theorem C5_witness :
    (sendBulkConfirmation envAllOk mailerAB (fun _ => "subject")
      (fun _ => "body") 3 1000).1 = 2 :=
  (C5_sendBulk_spec envAllOk mailerAB (fun _ => "subject")
    (fun _ => "body") 3 1000).2.2.2.1

end WaitlistMailer
